import Mathlib

/-!
Verification of the address-conversion pipeline in convert.py.

The development shallowly embeds the program: JSON documents become the
inductive type JValue, the helper functions safe_get, join_loc_and_name and
first_nonempty are translated directly, the per-feature aggregation into the
nested city/area/road hierarchy is modelled as insertion-ordered association
lists (Python dicts preserve insertion order; the building set is modelled as a
duplicate-free list, which is adequate because serialization sorts buildings by
the full triple), and the serializer sorts every level exactly as the source
does.  Python str.strip is modelled by String.trim.
-/

/-- A parsed JSON document, as produced by json.loads. -/
inductive JValue where
  | null : JValue
  | bool : Bool → JValue
  | num : Int → JValue
  | str : String → JValue
  | arr : List JValue → JValue
  | obj : List (String × JValue) → JValue

/-- First binding of a key in a JSON object (Python dict keys are unique). -/
def lookupKV (kvs : List (String × JValue)) (k : String) : Option JValue :=
  match kvs with
  | [] => none
  | (k', v) :: rest => if k' = k then some v else lookupKV rest k

/-- convert.py lines 8-14: walk a key path, returning the default as soon as the
current node is not a dict or lacks the key.  The Python signature has
default="" as a keyword default; here the default is the last argument. -/
def safe_get (d : JValue) (keys : List String) (dflt : JValue) : JValue :=
  match keys with
  | [] => d
  | k :: ks =>
    match d with
    | .obj kvs =>
      match lookupKV kvs k with
      | some v => safe_get v ks dflt
      | none => dflt
    | _ => dflt

/-- Spec-side nested lookup: the value at the path when every intermediate node
is a mapping containing the key, otherwise nothing. -/
def lookupPath (d : JValue) (keys : List String) : Option JValue :=
  match keys with
  | [] => some d
  | k :: ks =>
    match d with
    | .obj kvs =>
      match lookupKV kvs k with
      | some v => lookupPath v ks
      | none => none
    | _ => none

/-- Python d.get(k, dflt): defined for dicts only; on any other value the
attribute access raises (AttributeError), modelled as an error. -/
def pyGetD (v : JValue) (k : String) (dflt : JValue) : Except Unit JValue :=
  match v with
  | .obj kvs => .ok ((lookupKV kvs k).getD dflt)
  | _ => .error ()

/-- convert.py lines 48-51: per-feature access to the Chinese and English
premises-address objects.  feat.get("properties", {}) raises when the feature
is not a mapping; the remaining steps use safe_get and cannot fail. -/
def addrOf (feat : JValue) : Except Unit (JValue × JValue) :=
  match pyGetD feat "properties" (.obj []) with
  | .error e => .error e
  | .ok props =>
    let prem := safe_get props ["Address", "PremisesAddress"] (.obj [])
    .ok (safe_get prem ["ChiPremisesAddress"] (.obj []),
         safe_get prem ["EngPremisesAddress"] (.obj []))

/-- convert.py lines 16-21: join a location prefix and a name, both stripped,
with a single separating space; if one side strips to empty return the other
(name preferred), so both empty gives the empty string. -/
def join_loc_and_name (loc name : String) : String :=
  let l := loc.trim
  let n := name.trim
  if l ≠ "" ∧ n ≠ "" then l ++ " " ++ n
  else if n ≠ "" then n else l

/-- The join rule exactly as the specification words it. -/
def joinSpec (loc name : String) : String :=
  if loc.trim = "" ∧ name.trim = "" then ""
  else if loc.trim = "" then name.trim
  else if name.trim = "" then loc.trim
  else loc.trim ++ " " ++ name.trim

/-- convert.py lines 64-69 and 76-81 (one language): street data first, then
village data, else empty.  The branch tests are Python truthiness of the raw
looked-up strings, i.e. raw non-emptiness. -/
def roadName (street_loc street_name vill_loc vill_name : String) : String :=
  if street_name ≠ "" then join_loc_and_name street_loc street_name
  else if vill_name ≠ "" then join_loc_and_name vill_loc vill_name
  else ""

/-- convert.py lines 23-27: first argument that is a string with non-empty
stripped form, returned stripped; anything else is passed over. -/
def first_nonempty (vals : List JValue) : String :=
  match vals with
  | [] => ""
  | v :: vs =>
    match v with
    | .str s => if s.trim ≠ "" then s.trim else first_nonempty vs
    | _ => first_nonempty vs

/-- Spec-side reading of the building-number rule over string arguments: the
first value whose trimmed form is non-empty, returned trimmed. -/
def firstTrimmedSpec (vals : List String) : String :=
  match vals.find? (fun s => !(s.trim == "")) with
  | some s => s.trim
  | none => ""

/-- Spec-side reading over raw JSON arguments: the first argument that is a
string with non-empty stripped content, stripped; otherwise empty. -/
def firstStrSpec (vals : List JValue) : String :=
  match vals.find? (fun v => match v with | .str s => !(s.trim == "") | _ => false) with
  | some (.str s) => s.trim
  | _ => ""

/-- convert.py lines 92-97: building number from the four BuildingNoFrom
slots, in this exact order. -/
def buildingNoOf (chi eng : JValue) : String :=
  first_nonempty
    [safe_get chi ["ChiStreet", "BuildingNoFrom"] (.str ""),
     safe_get eng ["EngStreet", "BuildingNoFrom"] (.str ""),
     safe_get chi ["ChiVillage", "BuildingNoFrom"] (.str ""),
     safe_get eng ["EngVillage", "BuildingNoFrom"] (.str "")]

/-- Outcome of json.loads on one input file. -/
inductive PFile where
  | bad : String → PFile
  | good : JValue → PFile

/-- convert.py line 43-44: data.get("features", []) followed by the
isinstance list check.  On a parsed non-mapping document the attribute access
raises, modelled as an error. -/
def featuresOf (data : JValue) : Except Unit (List JValue) :=
  match data with
  | .obj kvs =>
    match lookupKV kvs "features" with
    | some (.arr l) => .ok l
    | some _ => .ok []
    | none => .ok []
  | _ => .error ()

/-- convert.py lines 36-47: the stream of features contributed by a list of
files; a file that failed to parse is skipped (with a printed diagnostic) and
processing continues, while a parsed file is handed to featuresOf. -/
def collectFeatures (files : List PFile) : Except Unit (List JValue) :=
  match files with
  | [] => .ok []
  | .bad _ :: rest => collectFeatures rest
  | .good d :: rest =>
    match featuresOf d with
    | .error e => .error e
    | .ok fs =>
      match collectFeatures rest with
      | .error e => .error e
      | .ok more => .ok (fs ++ more)

/-- True exactly on successful results. -/
def exceptOk {α : Type} (e : Except Unit α) : Bool :=
  match e with
  | .ok _ => true
  | .error _ => false

/-- Unfolding of firstTrimmedSpec on a cons cell. -/
theorem firstTrimmedSpec_cons (s : String) (vs : List String) :
    firstTrimmedSpec (s :: vs) =
      if s.trim = "" then firstTrimmedSpec vs else s.trim := by
  unfold firstTrimmedSpec
  cases hb : (s.trim == "") with
  | true =>
    have h : s.trim = "" := eq_of_beq hb
    simp [List.find?_cons, hb, h]
  | false =>
    have h : s.trim ≠ "" := ne_of_beq_false hb
    simp [List.find?_cons, hb, h]

/-- Unfolding of firstStrSpec on a string head. -/
theorem firstStrSpec_cons_str (s : String) (vs : List JValue) :
    firstStrSpec (JValue.str s :: vs) =
      if s.trim = "" then firstStrSpec vs else s.trim := by
  unfold firstStrSpec
  cases hb : (s.trim == "") with
  | true =>
    have h : s.trim = "" := eq_of_beq hb
    simp [List.find?_cons, hb, h]
  | false =>
    have h : s.trim ≠ "" := ne_of_beq_false hb
    simp [List.find?_cons, hb, h]

/-- Unfolding of firstStrSpec on a non-string head. -/
theorem firstStrSpec_cons_nonstr (v : JValue) (vs : List JValue)
    (h : ∀ s, v ≠ JValue.str s) :
    firstStrSpec (v :: vs) = firstStrSpec vs := by
  cases v <;> first
    | exact absurd rfl (h _)
    | (unfold firstStrSpec; simp [List.find?_cons])

/-- The two join functions agree on all inputs. -/
theorem join_loc_and_name_eq_joinSpec (l n : String) :
    join_loc_and_name l n = joinSpec l n := by
  unfold join_loc_and_name joinSpec
  by_cases hl : l.trim = "" <;> by_cases hn : n.trim = "" <;> simp [hl, hn]

/-- Claim C1: per language, the road name is derived from the street's
location/name pair when the raw street name is non-empty, else from the
village's pair when the raw village name is non-empty, else empty; in the
taken branch the two sides are trimmed and joined by a single space, the
space omitted when either trimmed side is empty and the result empty when
both are. -/
theorem road_name_matches_spec (street_loc street_name vill_loc vill_name : String) :
    roadName street_loc street_name vill_loc vill_name =
      if street_name ≠ "" then joinSpec street_loc street_name
      else if vill_name ≠ "" then joinSpec vill_loc vill_name
      else "" := by
  unfold roadName
  split_ifs <;> simp [join_loc_and_name_eq_joinSpec]

/-- Claim C2, counterexample: a parsed feature that is itself not a mapping
makes the field extraction raise (feat.get on a non-dict), rather than
degrade to empty-string defaults. -/
theorem extraction_raises_on_nonmapping_feature :
    addrOf (JValue.num 42) = .error () := rfl

/-- Claim C2 (amended): safe_get returns the value at the key path when every
intermediate node is a mapping containing the key and otherwise returns the
default, never raising; consequently, on every feature that is itself a
mapping, the extraction of the address objects never raises — but a feature
that is not a mapping raises instead of degrading. -/
theorem safe_get_total_lookup :
    (∀ (keys : List String) (d dflt : JValue),
        safe_get d keys dflt = (lookupPath d keys).getD dflt) ∧
    (∀ kvs : List (String × JValue), exceptOk (addrOf (JValue.obj kvs)) = true) := by
  constructor
  · intro keys
    induction keys with
    | nil => intro d dflt; rfl
    | cons k ks ih =>
      intro d dflt
      cases d <;> simp [safe_get, lookupPath]
      cases h : lookupKV _ k <;> simp [h, ih]
  · intro kvs
    simp [addrOf, pyGetD, exceptOk]

/-- Claim C5: the building number is first_nonempty applied to the four
BuildingNoFrom slots in the exact order CN-street, EN-street, CN-village,
EN-village, and on string arguments first_nonempty returns the first value
with non-empty trimmed form, trimmed, or the empty string. -/
theorem building_number_first_nonempty :
    (∀ chi eng : JValue,
        buildingNoOf chi eng =
          first_nonempty
            [safe_get chi ["ChiStreet", "BuildingNoFrom"] (.str ""),
             safe_get eng ["EngStreet", "BuildingNoFrom"] (.str ""),
             safe_get chi ["ChiVillage", "BuildingNoFrom"] (.str ""),
             safe_get eng ["EngVillage", "BuildingNoFrom"] (.str "")]) ∧
    (∀ vals : List String,
        first_nonempty (vals.map JValue.str) = firstTrimmedSpec vals) := by
  refine ⟨fun chi eng => rfl, fun vals => ?_⟩
  induction vals with
  | nil => rfl
  | cons s vs ih =>
    rw [List.map_cons, firstTrimmedSpec_cons]
    by_cases h : s.trim = "" <;> simp [first_nonempty, h, ih]

/-- Claim C10: first_nonempty returns the stripped form of the first argument
that is a string with non-empty stripped content (empty string when none
qualifies), and an argument that is not a string is passed over exactly as if
it were empty. -/
theorem first_nonempty_skips_nonstrings :
    (∀ vals : List JValue, first_nonempty vals = firstStrSpec vals) ∧
    (∀ (v : JValue) (vals : List JValue), (∀ s, v ≠ JValue.str s) →
        first_nonempty (v :: vals) = first_nonempty vals) := by
  constructor
  · intro vals
    induction vals with
    | nil => rfl
    | cons v vs ih =>
      cases v with
      | str s =>
        rw [firstStrSpec_cons_str]
        by_cases h : s.trim = "" <;> simp [first_nonempty, h, ih]
      | null => rw [firstStrSpec_cons_nonstr _ _ (fun _ h => by cases h)]; exact ih
      | bool b => rw [firstStrSpec_cons_nonstr _ _ (fun _ h => by cases h)]; exact ih
      | num n => rw [firstStrSpec_cons_nonstr _ _ (fun _ h => by cases h)]; exact ih
      | arr l => rw [firstStrSpec_cons_nonstr _ _ (fun _ h => by cases h)]; exact ih
      | obj kvs => rw [firstStrSpec_cons_nonstr _ _ (fun _ h => by cases h)]; exact ih
  · intro v vals h
    cases v <;> first
      | rfl
      | exact absurd rfl (h _)

/-- Witness for claim C10: a numeric argument in first place is passed over. -/
theorem first_nonempty_skips_nonstrings_witness :
    first_nonempty [JValue.num 3, JValue.str " 7 "] =
      first_nonempty [JValue.str " 7 "] :=
  first_nonempty_skips_nonstrings.2 (JValue.num 3) [JValue.str " 7 "]
    (fun _ h => by cases h)

/-- Claim C9, counterexample: a file whose content parses as JSON but whose
top-level value is not a mapping (here the number 42, whose features field is
certainly missing) makes processing raise instead of being silently skipped. -/
theorem nonmapping_file_raises :
    collectFeatures [PFile.good (JValue.num 42)] = .error () := rfl

/-- Claim C9 (amended): a file that failed to parse is skipped and processing
continues with the remaining files, and a parsed file whose top-level value is
a mapping with a missing or non-sequence features field silently contributes
zero features; but a parsed file whose top-level value is not a mapping raises
instead. -/
theorem file_skip_and_features_rule :
    (∀ (msg : String) (rest : List PFile),
        collectFeatures (PFile.bad msg :: rest) = collectFeatures rest) ∧
    (∀ kvs : List (String × JValue),
        featuresOf (JValue.obj kvs) =
          .ok (match lookupKV kvs "features" with
               | some (.arr l) => l
               | _ => [])) := by
  refine ⟨fun msg rest => rfl, fun kvs => ?_⟩
  have hu : featuresOf (JValue.obj kvs) =
      (match lookupKV kvs "features" with
       | some (.arr l) => .ok l
       | some _ => .ok []
       | none => .ok []) := rfl
  rw [hu]
  cases lookupKV kvs "features" with
  | none => rfl
  | some v => cases v <;> rfl

/-- An extracted address record: the nine per-feature string fields of
convert.py lines 53-97, as consumed by the aggregation loop. -/
structure AddrRec where
  cityCN : String
  cityEN : String
  areaCN : String
  areaEN : String
  roadCN : String
  roadEN : String
  bno : String
  bcn : String
  ben : String
deriving DecidableEq, Repr

/-- A (Chinese name, English name) pair used as a mapping key. -/
abbrev NameKey := String × String

/-- A building triple (BuildingNo, BuildingName, BuildingEngName). -/
abbrev Bld := String × String × String

def ckey (r : AddrRec) : NameKey := (r.cityCN, r.cityEN)

def akey (r : AddrRec) : NameKey := (r.areaCN, r.areaEN)

def rkey (r : AddrRec) : NameKey := (r.roadCN, r.roadEN)

def btriple (r : AddrRec) : Bld := (r.bno, r.bcn, r.ben)

/-- convert.py line 84: all six core fields are falsy, i.e. empty strings. -/
def coreEmpty (r : AddrRec) : Bool :=
  r.cityCN == "" && r.cityEN == "" && r.areaCN == "" &&
  r.areaEN == "" && r.roadCN == "" && r.roadEN == ""

/-- convert.py line 108: at least one building-name field is non-empty. -/
def bNamed (r : AddrRec) : Bool :=
  r.bcn != "" || r.ben != ""

/-- Road level of the hierarchy: key to duplicate-free list of buildings. -/
abbrev RoadMap := List (NameKey × List Bld)

/-- Area level of the hierarchy. -/
abbrev AreaMap := List (NameKey × RoadMap)

/-- City level of the hierarchy. -/
abbrev CityMap := List (NameKey × AreaMap)

/-- dict.setdefault(k, d) followed by an in-place update of the entry: the
entry for k is updated where it stands, or appended (Python dicts preserve
insertion order) with value f d when absent. -/
def upsert {β : Type} (m : List (NameKey × β)) (k : NameKey) (d : β) (f : β → β) :
    List (NameKey × β) :=
  match m with
  | [] => [(k, f d)]
  | (k', v) :: rest =>
    if k' = k then (k', f v) :: rest else (k', v) :: upsert rest k d f

/-- Value bound to k, or the default when absent. -/
def lookupD {β : Type} (m : List (NameKey × β)) (k : NameKey) (d : β) : β :=
  match m with
  | [] => d
  | (k', v) :: rest => if k' = k then v else lookupD rest k d

/-- Keys of an association list, in insertion order. -/
def keysOf {β : Type} (m : List (NameKey × β)) : List NameKey :=
  m.map Prod.fst

/-- set.add: append the triple unless it is already present. -/
def addBld (bs : List Bld) (b : Bld) : List Bld :=
  if b ∈ bs then bs else bs ++ [b]

/-- convert.py lines 107-109: buildings change only when a name exists. -/
def updB (r : AddrRec) (bs : List Bld) : List Bld :=
  if bNamed r then addBld bs (btriple r) else bs

def updRoad (r : AddrRec) (roads : RoadMap) : RoadMap :=
  upsert roads (rkey r) [] (updB r)

def updArea (r : AddrRec) (areas : AreaMap) : AreaMap :=
  upsert areas (akey r) [] (updRoad r)

/-- convert.py lines 84-109: one loop iteration over an extracted record. -/
def processRecord (m : CityMap) (r : AddrRec) : CityMap :=
  if coreEmpty r then m else upsert m (ckey r) [] (updArea r)

/-- The hierarchy built from a stream of extracted records. -/
def buildHier (rs : List AddrRec) : CityMap :=
  rs.foldl processRecord []

/-- Generic one-level aggregation: fold records into an association list,
keying each record with key and updating its entry with upd. -/
def foldUp {β : Type} (key : AddrRec → NameKey) (d : β) (upd : AddrRec → β → β)
    (m : List (NameKey × β)) (rs : List AddrRec) : List (NameKey × β) :=
  rs.foldl (fun acc r => upsert acc (key r) d (upd r)) m

/-- Building list accumulated from a stream of records. -/
def buildBs (bs : List Bld) (rs : List AddrRec) : List Bld :=
  rs.foldl (fun acc r => updB r acc) bs

def buildRoads (rs : List AddrRec) : RoadMap := foldUp rkey [] updB [] rs

def buildAreas (rs : List AddrRec) : AreaMap := foldUp akey [] updRoad [] rs

def buildCities (rs : List AddrRec) : CityMap := foldUp ckey [] updArea [] rs

/-- Codepoint-wise string comparison, the order Python uses on str. -/
def strLe (a b : String) : Bool := decide (a ≤ b)

/-- Lexicographic comparison of a pair, first component by the linear order,
second by the supplied comparison; this is Python tuple comparison. -/
def lexLe {α β : Type} [LinearOrder α] (le2 : β → β → Bool) (a b : α × β) : Bool :=
  if a.1 = b.1 then le2 a.2 b.2 else decide (a.1 < b.1)

def keyLe : NameKey → NameKey → Bool := lexLe strLe

def bldLe : Bld → Bld → Bool := lexLe keyLe

/-- One output building object. -/
structure BldOut where
  buildingNo : String
  buildingName : String
  buildingEngName : String
deriving DecidableEq, Repr

/-- One output road object; buildings is none when the Buildings key is
omitted (empty building set). -/
structure RoadOut where
  roadName : String
  roadEngName : String
  buildings : Option (List BldOut)
deriving DecidableEq, Repr

/-- One output area object, with the constant zip code. -/
structure AreaOut where
  zipCode : String
  areaName : String
  areaEngName : String
  roadList : List RoadOut
deriving DecidableEq, Repr

/-- One output city object. -/
structure CityOut where
  cityName : String
  cityEngName : String
  areaList : List AreaOut
deriving DecidableEq, Repr

def serBld (b : Bld) : BldOut := ⟨b.1, b.2.1, b.2.2⟩

/-- convert.py lines 119-132: one road object; buildings sorted by the full
triple and omitted when the set is empty. -/
def serRoad (roads : RoadMap) (rk : NameKey) : RoadOut :=
  let bs := lookupD roads rk []
  ⟨rk.1, rk.2, if bs.isEmpty then none else some ((bs.mergeSort bldLe).map serBld)⟩

/-- Roads of one area, sorted by (RoadName, RoadEngName). -/
def serRoads (roads : RoadMap) : List RoadOut :=
  ((keysOf roads).mergeSort keyLe).map (serRoad roads)

/-- convert.py lines 134-139: one area object with the constant zip code. -/
def serArea (areas : AreaMap) (ak : NameKey) : AreaOut :=
  ⟨"999077", ak.1, ak.2, serRoads (lookupD areas ak [])⟩

def serAreas (areas : AreaMap) : List AreaOut :=
  ((keysOf areas).mergeSort keyLe).map (serArea areas)

/-- convert.py lines 141-145: one city object. -/
def serCity (m : CityMap) (ck : NameKey) : CityOut :=
  ⟨ck.1, ck.2, serAreas (lookupD m ck [])⟩

/-- convert.py lines 112-145: the sorted output document. -/
def serialize (m : CityMap) : List CityOut :=
  ((keysOf m).mergeSort keyLe).map (serCity m)

/-- The whole record-level pipeline: aggregate then serialize. -/
def pipeline (rs : List AddrRec) : List CityOut :=
  serialize (buildHier rs)

/-- Consecutive-pairs check: every adjacent pair satisfies le. -/
def chainLe {α : Type} (le : α → α → Bool) : List α → Bool
  | [] => true
  | [_] => true
  | a :: b :: t => le a b && chainLe le (b :: t)

def bldOutLe (x y : BldOut) : Bool :=
  bldLe (x.buildingNo, x.buildingName, x.buildingEngName)
    (y.buildingNo, y.buildingName, y.buildingEngName)

def roadOutLe (x y : RoadOut) : Bool :=
  keyLe (x.roadName, x.roadEngName) (y.roadName, y.roadEngName)

def areaOutLe (x y : AreaOut) : Bool :=
  keyLe (x.areaName, x.areaEngName) (y.areaName, y.areaEngName)

def cityOutLe (x y : CityOut) : Bool :=
  keyLe (x.cityName, x.cityEngName) (y.cityName, y.cityEngName)

/-- The buildings of one road object are sorted (vacuously when omitted). -/
def roadSortedB (rd : RoadOut) : Bool :=
  match rd.buildings with
  | none => true
  | some bs => chainLe bldOutLe bs

/-- Every level of the output is sorted ascending: cities by
(CityName, CityEngName), areas by (AreaName, AreaEngName), roads by
(RoadName, RoadEngName), buildings by the full triple. -/
def outputSorted (out : List CityOut) : Bool :=
  chainLe cityOutLe out &&
  out.all (fun c =>
    chainLe areaOutLe c.areaList &&
    c.areaList.all (fun a =>
      chainLe roadOutLe a.roadList &&
      a.roadList.all roadSortedB))

/-- A road entry is present in the hierarchy under the given keys. -/
def roadPresent (m : CityMap) (ck ak rk : NameKey) : Bool :=
  decide (rk ∈ keysOf (lookupD (lookupD m ck []) ak []))

/-- The building list recorded in the hierarchy under the given keys. -/
def buildingsAt (m : CityMap) (ck ak rk : NameKey) : List Bld :=
  lookupD (lookupD (lookupD m ck []) ak []) rk []

def countBs (obs : Option (List BldOut)) (b : BldOut) : Nat :=
  match obs with
  | none => 0
  | some bs => bs.count b

def countRoads (rds : List RoadOut) (rk : NameKey) (b : BldOut) : Nat :=
  (rds.map (fun rd =>
    if rd.roadName = rk.1 ∧ rd.roadEngName = rk.2 then countBs rd.buildings b else 0)).sum

def countAreas (areas : List AreaOut) (ak rk : NameKey) (b : BldOut) : Nat :=
  (areas.map (fun a =>
    if a.areaName = ak.1 ∧ a.areaEngName = ak.2 then countRoads a.roadList rk b else 0)).sum

/-- Number of occurrences of the building b in the output under the named
city, area and road. -/
def countOut (out : List CityOut) (ck ak rk : NameKey) (b : BldOut) : Nat :=
  (out.map (fun c =>
    if c.cityName = ck.1 ∧ c.cityEngName = ck.2 then countAreas c.areaList ak rk b else 0)).sum

theorem keysOf_nil {β : Type} : keysOf (β := β) [] = [] := rfl

theorem keysOf_cons {β : Type} (q : NameKey) (v : β) (m : List (NameKey × β)) :
    keysOf ((q, v) :: m) = q :: keysOf m := rfl

theorem lookupD_cons {β : Type} (q : NameKey) (v : β) (m : List (NameKey × β)) (k : NameKey) (d : β) :
    lookupD ((q, v) :: m) k d = if q = k then v else lookupD m k d := rfl

theorem lookupD_upsert_self {β : Type} (m : List (NameKey × β)) (k : NameKey) (d : β) (f : β → β) :
    lookupD (upsert m k d f) k d = f (lookupD m k d) := by
  induction m with
  | nil => simp [upsert, lookupD]
  | cons kv rest ih =>
    obtain ⟨q, v⟩ := kv
    by_cases hq : q = k
    · subst hq; simp [upsert, lookupD]
    · simp [upsert, lookupD, hq, ih]

theorem lookupD_upsert_other {β : Type} (m : List (NameKey × β)) (k k' : NameKey) (d : β)
    (f : β → β) (h : k' ≠ k) :
    lookupD (upsert m k d f) k' d = lookupD m k' d := by
  induction m with
  | nil =>
    have hne : k ≠ k' := fun hh => h hh.symm
    simp [upsert, lookupD, hne]
  | cons kv rest ih =>
    obtain ⟨q, v⟩ := kv
    by_cases hq : q = k
    · subst hq
      have hqk : q ≠ k' := fun hh => h hh.symm
      simp [upsert, lookupD, hqk]
    · simp [upsert, lookupD, hq, ih]

theorem mem_keysOf_upsert {β : Type} (m : List (NameKey × β)) (k k' : NameKey) (d : β) (f : β → β) :
    k' ∈ keysOf (upsert m k d f) ↔ k' ∈ keysOf m ∨ k' = k := by
  induction m with
  | nil => simp [upsert, keysOf]
  | cons kv rest ih =>
    obtain ⟨q, v⟩ := kv
    by_cases hq : q = k
    · subst hq; simp [upsert, keysOf_cons]; tauto
    · simp only [upsert, if_neg hq, keysOf_cons, List.mem_cons, ih]
      tauto

theorem nodup_keysOf_upsert {β : Type} (m : List (NameKey × β)) (k : NameKey) (d : β) (f : β → β)
    (h : (keysOf m).Nodup) : (keysOf (upsert m k d f)).Nodup := by
  induction m with
  | nil => simp [upsert, keysOf]
  | cons kv rest ih =>
    obtain ⟨q, v⟩ := kv
    rw [keysOf_cons] at h
    obtain ⟨hq, hrest⟩ := List.nodup_cons.mp h
    by_cases hqk : q = k
    · subst hqk; simpa [upsert, keysOf_cons] using h
    · rw [upsert, if_neg hqk, keysOf_cons, List.nodup_cons]
      refine ⟨fun hmem => ?_, ih hrest⟩
      rcases (mem_keysOf_upsert rest k q d f).mp hmem with hin | heq
      · exact hq hin
      · exact hqk heq

theorem foldUp_cons {β : Type} (key : AddrRec → NameKey) (d : β) (upd : AddrRec → β → β)
    (m : List (NameKey × β)) (r : AddrRec) (rs : List AddrRec) :
    foldUp key d upd m (r :: rs) = foldUp key d upd (upsert m (key r) d (upd r)) rs := rfl

theorem mem_keysOf_foldUp {β : Type} (key : AddrRec → NameKey) (d : β) (upd : AddrRec → β → β)
    (m : List (NameKey × β)) (rs : List AddrRec) (k : NameKey) :
    k ∈ keysOf (foldUp key d upd m rs) ↔ k ∈ keysOf m ∨ ∃ r ∈ rs, key r = k := by
  induction rs generalizing m with
  | nil => simp [foldUp]
  | cons r rs ih =>
    rw [foldUp_cons, ih]
    simp only [mem_keysOf_upsert, List.mem_cons]
    constructor
    · rintro (⟨h | h⟩ | ⟨r', hr', hk⟩)
      · exact Or.inl h
      · exact Or.inr ⟨r, Or.inl rfl, h.symm⟩
      · exact Or.inr ⟨r', Or.inr hr', hk⟩
    · rintro (h | ⟨r', hr' | hr', hk⟩)
      · exact Or.inl (Or.inl h)
      · subst hr'; exact Or.inl (Or.inr hk.symm)
      · exact Or.inr ⟨r', hr', hk⟩

theorem nodup_keysOf_foldUp {β : Type} (key : AddrRec → NameKey) (d : β) (upd : AddrRec → β → β)
    (m : List (NameKey × β)) (rs : List AddrRec) (h : (keysOf m).Nodup) :
    (keysOf (foldUp key d upd m rs)).Nodup := by
  induction rs generalizing m with
  | nil => exact h
  | cons r rs ih => exact ih _ (nodup_keysOf_upsert m (key r) d (upd r) h)

theorem lookupD_foldUp {β : Type} (key : AddrRec → NameKey) (d : β) (upd : AddrRec → β → β)
    (m : List (NameKey × β)) (rs : List AddrRec) (k : NameKey) :
    lookupD (foldUp key d upd m rs) k d =
      (rs.filter (fun r => key r == k)).foldl (fun b r => upd r b) (lookupD m k d) := by
  induction rs generalizing m with
  | nil => rfl
  | cons r rs ih =>
    rw [foldUp_cons, ih, List.filter_cons]
    by_cases h : key r = k
    · subst h
      simp [lookupD_upsert_self]
    · have hb : (key r == k) = false := by simp [h]
      simp only [hb, Bool.false_eq_true, if_neg, not_false_iff]
      rw [lookupD_upsert_other _ _ _ _ _ (fun hh => h hh.symm)]

theorem mem_addBld (bs : List Bld) (b b' : Bld) :
    b ∈ addBld bs b' ↔ b ∈ bs ∨ b = b' := by
  unfold addBld
  split_ifs with h
  · constructor
    · exact Or.inl
    · rintro (hb | rfl) <;> assumption
  · simp [List.mem_append]

theorem nodup_addBld (bs : List Bld) (b : Bld) (h : bs.Nodup) : (addBld bs b).Nodup := by
  unfold addBld
  split_ifs with hb
  · exact h
  · simp [List.nodup_append, h, hb]

theorem buildBs_cons (bs : List Bld) (r : AddrRec) (rs : List AddrRec) :
    buildBs bs (r :: rs) = buildBs (updB r bs) rs := rfl

theorem mem_buildBs (bs : List Bld) (rs : List AddrRec) (b : Bld) :
    b ∈ buildBs bs rs ↔ b ∈ bs ∨ ∃ r ∈ rs, bNamed r = true ∧ btriple r = b := by
  induction rs generalizing bs with
  | nil => simp [buildBs]
  | cons r rs ih =>
    rw [buildBs_cons, ih]
    by_cases h : bNamed r
    · simp only [updB, if_pos h, mem_addBld, List.mem_cons]
      constructor
      · rintro (⟨hb | rfl⟩ | ⟨r', hr', hn', ht'⟩)
        · exact Or.inl hb
        · exact Or.inr ⟨r, Or.inl rfl, h, rfl⟩
        · exact Or.inr ⟨r', Or.inr hr', hn', ht'⟩
      · rintro (hb | ⟨r', hr' | hr', hn', ht'⟩)
        · exact Or.inl (Or.inl hb)
        · subst hr'; exact Or.inl (Or.inr ht'.symm)
        · exact Or.inr ⟨r', hr', hn', ht'⟩
    · have hb : bNamed r = false := by simpa using h
      simp only [updB, hb, Bool.false_eq_true, if_neg, not_false_iff, List.mem_cons]
      constructor
      · rintro (hx | ⟨r', hr', hn', ht'⟩)
        · exact Or.inl hx
        · exact Or.inr ⟨r', Or.inr hr', hn', ht'⟩
      · rintro (hx | ⟨r', hr' | hr', hn', ht'⟩)
        · exact Or.inl hx
        · subst hr'; rw [hn'] at hb; cases hb
        · exact Or.inr ⟨r', hr', hn', ht'⟩

theorem nodup_buildBs (bs : List Bld) (rs : List AddrRec) (h : bs.Nodup) :
    (buildBs bs rs).Nodup := by
  induction rs generalizing bs with
  | nil => exact h
  | cons r rs ih =>
    rw [buildBs_cons]
    refine ih _ ?_
    unfold updB
    split_ifs with hn
    · exact nodup_addBld _ _ h
    · exact h

/-- Claim C3: a record with all six core fields empty leaves the hierarchy
untouched (contributing nothing even when it carries a building name), and a
record with at least one non-empty core field puts a road entry under its
city/area/road keys (even when it contributes no building). -/
theorem hierarchy_entry_iff_core_nonempty (m : CityMap) (r : AddrRec) :
    (coreEmpty r = true → processRecord m r = m) ∧
    (coreEmpty r = false →
      roadPresent (processRecord m r) (ckey r) (akey r) (rkey r) = true) := by
  constructor
  · intro h
    simp [processRecord, h]
  · intro h
    simp only [processRecord, h, Bool.false_eq_true, if_neg, not_false_iff, roadPresent,
      decide_eq_true_eq]
    rw [lookupD_upsert_self]
    simp only [updArea]
    rw [lookupD_upsert_self]
    simp only [updRoad]
    rw [mem_keysOf_upsert]
    exact Or.inr rfl

/-- Witness for claim C3: a record with only the Chinese city name set creates
its road entry in the empty hierarchy, and a fully empty record with a
building name contributes nothing. -/
theorem hierarchy_entry_iff_core_nonempty_witness :
    (coreEmpty ⟨"九龍", "", "", "", "", "", "", "", ""⟩ = false ∧
      roadPresent (processRecord [] ⟨"九龍", "", "", "", "", "", "", "", ""⟩)
        (ckey ⟨"九龍", "", "", "", "", "", "", "", ""⟩)
        (akey ⟨"九龍", "", "", "", "", "", "", "", ""⟩)
        (rkey ⟨"九龍", "", "", "", "", "", "", "", ""⟩) = true) ∧
    (coreEmpty ⟨"", "", "", "", "", "", "1", "樓", "Tower"⟩ = true ∧
      processRecord [] ⟨"", "", "", "", "", "", "1", "樓", "Tower"⟩ = []) :=
  ⟨⟨by decide,
    (hierarchy_entry_iff_core_nonempty [] ⟨"九龍", "", "", "", "", "", "", "", ""⟩).2 (by decide)⟩,
   ⟨by decide,
    (hierarchy_entry_iff_core_nonempty [] ⟨"", "", "", "", "", "", "1", "樓", "Tower"⟩).1 (by decide)⟩⟩

/-- Claim C4: a record whose two building-name fields are both empty changes
no building list anywhere (a bare building number is never recorded), and a
non-skipped record with at least one building name inserts its triple into
the building list under its keys. -/
theorem building_insertion_rule (m : CityMap) (r : AddrRec) :
    (r.bcn = "" → r.ben = "" →
      ∀ ck ak rk, buildingsAt (processRecord m r) ck ak rk = buildingsAt m ck ak rk) ∧
    (coreEmpty r = false → (r.bcn ≠ "" ∨ r.ben ≠ "") →
      btriple r ∈ buildingsAt (processRecord m r) (ckey r) (akey r) (rkey r)) := by
  constructor
  · intro h1 h2 ck ak rk
    have hb : bNamed r = false := by simp [bNamed, h1, h2]
    by_cases hc : coreEmpty r = true
    · simp [processRecord, hc]
    · have hc' : coreEmpty r = false := by simpa using hc
      simp only [processRecord, hc', Bool.false_eq_true, if_neg, not_false_iff]
      unfold buildingsAt
      by_cases e1 : ck = ckey r
      · subst e1
        rw [lookupD_upsert_self]
        simp only [updArea]
        by_cases e2 : ak = akey r
        · subst e2
          rw [lookupD_upsert_self]
          simp only [updRoad]
          by_cases e3 : rk = rkey r
          · subst e3
            rw [lookupD_upsert_self]
            simp [updB, hb]
          · rw [lookupD_upsert_other _ _ _ _ _ e3]
        · rw [lookupD_upsert_other _ _ _ _ _ e2]
      · rw [lookupD_upsert_other _ _ _ _ _ e1]
  · intro hc hn
    have hb : bNamed r = true := by
      rcases hn with h | h <;> simp [bNamed, h]
    simp only [processRecord, hc, Bool.false_eq_true, if_neg, not_false_iff]
    unfold buildingsAt
    rw [lookupD_upsert_self]
    simp only [updArea]
    rw [lookupD_upsert_self]
    simp only [updRoad]
    rw [lookupD_upsert_self]
    simp [updB, hb, mem_addBld]

/-- Witness for claim C4: a named building is inserted, and a record with a
bare building number changes no building list. -/
theorem building_insertion_rule_witness :
    (coreEmpty ⟨"九龍", "KLN", "", "", "", "", "1", "樓", ""⟩ = false ∧
      btriple ⟨"九龍", "KLN", "", "", "", "", "1", "樓", ""⟩ ∈
        buildingsAt (processRecord [] ⟨"九龍", "KLN", "", "", "", "", "1", "樓", ""⟩)
          (ckey ⟨"九龍", "KLN", "", "", "", "", "1", "樓", ""⟩)
          (akey ⟨"九龍", "KLN", "", "", "", "", "1", "樓", ""⟩)
          (rkey ⟨"九龍", "KLN", "", "", "", "", "1", "樓", ""⟩)) ∧
    buildingsAt (processRecord [] ⟨"九龍", "KLN", "", "", "", "", "7", "", ""⟩)
        ("九龍", "KLN") ("", "") ("", "") =
      buildingsAt [] ("九龍", "KLN") ("", "") ("", "") :=
  ⟨⟨by decide,
    (building_insertion_rule [] ⟨"九龍", "KLN", "", "", "", "", "1", "樓", ""⟩).2 (by decide)
      (Or.inl (by decide))⟩,
   (building_insertion_rule [] ⟨"九龍", "KLN", "", "", "", "", "7", "", ""⟩).1 rfl rfl
     ("九龍", "KLN") ("", "") ("", "")⟩

theorem strLe_trans (a b c : String) (hab : strLe a b = true) (hbc : strLe b c = true) :
    strLe a c = true := by
  simp only [strLe, decide_eq_true_eq] at hab hbc ⊢
  exact le_trans hab hbc

theorem strLe_total (a b : String) : strLe a b || strLe b a := by
  simp only [strLe]
  rcases le_total a b with h | h <;> simp [h]

theorem strLe_antisymm (a b : String) (hab : strLe a b = true) (hba : strLe b a = true) :
    a = b := by
  simp only [strLe, decide_eq_true_eq] at hab hba
  exact le_antisymm hab hba

theorem lexLe_eq_true_iff {α β : Type} [LinearOrder α] (le2 : β → β → Bool) (a b : α × β) :
    lexLe le2 a b = true ↔ (a.1 = b.1 ∧ le2 a.2 b.2 = true) ∨ a.1 < b.1 := by
  unfold lexLe
  by_cases e : a.1 = b.1 <;> simp [e]

theorem lexLe_trans {α β : Type} [LinearOrder α] (le2 : β → β → Bool)
    (h2 : ∀ x y z, le2 x y = true → le2 y z = true → le2 x z = true)
    (a b c : α × β) (hab : lexLe le2 a b = true) (hbc : lexLe le2 b c = true) :
    lexLe le2 a c = true := by
  rw [lexLe_eq_true_iff] at hab hbc ⊢
  rcases hab with ⟨e1, l1⟩ | lt1
  · rcases hbc with ⟨e2, l2⟩ | lt2
    · exact Or.inl ⟨e1.trans e2, h2 _ _ _ l1 l2⟩
    · exact Or.inr (e1 ▸ lt2)
  · rcases hbc with ⟨e2, l2⟩ | lt2
    · exact Or.inr (e2 ▸ lt1)
    · exact Or.inr (lt_trans lt1 lt2)

theorem lexLe_total {α β : Type} [LinearOrder α] (le2 : β → β → Bool)
    (h2 : ∀ x y, le2 x y || le2 y x) (a b : α × β) :
    lexLe le2 a b || lexLe le2 b a := by
  rcases lt_trichotomy a.1 b.1 with h | h | h
  · have : lexLe le2 a b = true := (lexLe_eq_true_iff le2 a b).mpr (Or.inr h)
    simp [this]
  · rcases Bool.or_eq_true_iff.mp (h2 a.2 b.2) with hx | hx
    · have : lexLe le2 a b = true := (lexLe_eq_true_iff le2 a b).mpr (Or.inl ⟨h, hx⟩)
      simp [this]
    · have : lexLe le2 b a = true := (lexLe_eq_true_iff le2 b a).mpr (Or.inl ⟨h.symm, hx⟩)
      simp [this]
  · have : lexLe le2 b a = true := (lexLe_eq_true_iff le2 b a).mpr (Or.inr h)
    simp [this]

theorem lexLe_antisymm {α β : Type} [LinearOrder α] (le2 : β → β → Bool)
    (h2 : ∀ x y, le2 x y = true → le2 y x = true → x = y)
    (a b : α × β) (hab : lexLe le2 a b = true) (hba : lexLe le2 b a = true) : a = b := by
  rw [lexLe_eq_true_iff] at hab hba
  rcases hab with ⟨e1, l1⟩ | lt1
  · rcases hba with ⟨e2, l2⟩ | lt2
    · exact Prod.ext e1 (h2 _ _ l1 l2)
    · exact absurd lt2 (by rw [e1]; exact lt_irrefl _)
  · rcases hba with ⟨e2, l2⟩ | lt2
    · exact absurd lt1 (by rw [e2]; exact lt_irrefl _)
    · exact absurd lt2 (lt_asymm lt1)

theorem keyLe_trans (a b c : NameKey) (hab : keyLe a b = true) (hbc : keyLe b c = true) :
    keyLe a c = true :=
  lexLe_trans strLe strLe_trans a b c hab hbc

theorem keyLe_total (a b : NameKey) : keyLe a b || keyLe b a :=
  lexLe_total strLe strLe_total a b

theorem keyLe_antisymm (a b : NameKey) (hab : keyLe a b = true) (hba : keyLe b a = true) :
    a = b :=
  lexLe_antisymm strLe strLe_antisymm a b hab hba

theorem bldLe_trans (a b c : Bld) (hab : bldLe a b = true) (hbc : bldLe b c = true) :
    bldLe a c = true :=
  lexLe_trans keyLe keyLe_trans a b c hab hbc

theorem bldLe_total (a b : Bld) : bldLe a b || bldLe b a :=
  lexLe_total keyLe keyLe_total a b

theorem bldLe_antisymm (a b : Bld) (hab : bldLe a b = true) (hba : bldLe b a = true) :
    a = b :=
  lexLe_antisymm keyLe keyLe_antisymm a b hab hba

/-- Two lists that are permutations of one another have the same mergeSort
image when the comparison is transitive, total and antisymmetric. -/
theorem mergeSort_eq_of_perm {α : Type} (le : α → α → Bool)
    (htr : ∀ a b c : α, le a b = true → le b c = true → le a c = true)
    (hto : ∀ a b : α, le a b || le b a)
    (han : ∀ a b : α, le a b = true → le b a = true → a = b)
    {l₁ l₂ : List α} (h : List.Perm l₁ l₂) :
    l₁.mergeSort le = l₂.mergeSort le := by
  haveI : IsAntisymm α (fun a b => le a b = true) := ⟨han⟩
  have p : List.Perm (l₁.mergeSort le) (l₂.mergeSort le) :=
    ((List.mergeSort_perm l₁ le).trans h).trans (List.mergeSort_perm l₂ le).symm
  exact List.eq_of_perm_of_sorted p (List.sorted_mergeSort htr hto l₁)
    (List.sorted_mergeSort htr hto l₂)

theorem chainLe_cons₂ {α : Type} (le : α → α → Bool) (a b : α) (t : List α) :
    chainLe le (a :: b :: t) = (le a b && chainLe le (b :: t)) := rfl

theorem chainLe_of_pairwise {α : Type} (le : α → α → Bool) (l : List α)
    (h : l.Pairwise (fun a b => le a b = true)) : chainLe le l = true := by
  induction l with
  | nil => rfl
  | cons a t ih =>
    rcases List.pairwise_cons.mp h with ⟨ha, ht⟩
    cases t with
    | nil => rfl
    | cons b t' =>
      have hab : le a b = true := ha b (List.mem_cons_self b t')
      rw [chainLe_cons₂, hab, ih ht]
      rfl

theorem chainLe_map {α γ : Type} (le : γ → γ → Bool) (f : α → γ) (l : List α) :
    chainLe le (l.map f) = chainLe (fun a b => le (f a) (f b)) l := by
  induction l with
  | nil => rfl
  | cons a t ih =>
    cases t with
    | nil => rfl
    | cons b t' =>
      simp only [List.map_cons] at ih ⊢
      rw [chainLe_cons₂, chainLe_cons₂, ih]

theorem serRoad_buildings_sorted (roads : RoadMap) (rk : NameKey) :
    roadSortedB (serRoad roads rk) = true := by
  unfold roadSortedB serRoad
  by_cases h : (lookupD roads rk []).isEmpty
  · simp [h]
  · simp only [h, Bool.false_eq_true, if_neg, not_false_iff]
    rw [chainLe_map]
    have he : (fun a b => bldOutLe (serBld a) (serBld b)) = bldLe := by
      funext a b; rfl
    rw [he]
    exact chainLe_of_pairwise bldLe _ (List.sorted_mergeSort bldLe_trans bldLe_total _)

theorem serRoads_chain_sorted (roads : RoadMap) :
    chainLe roadOutLe (serRoads roads) = true := by
  unfold serRoads
  rw [chainLe_map]
  have he : (fun a b => roadOutLe (serRoad roads a) (serRoad roads b)) = keyLe := by
    funext a b; rfl
  rw [he]
  exact chainLe_of_pairwise keyLe _ (List.sorted_mergeSort keyLe_trans keyLe_total _)

theorem serAreas_chain_sorted (areas : AreaMap) :
    chainLe areaOutLe (serAreas areas) = true := by
  unfold serAreas
  rw [chainLe_map]
  have he : (fun a b => areaOutLe (serArea areas a) (serArea areas b)) = keyLe := by
    funext a b; rfl
  rw [he]
  exact chainLe_of_pairwise keyLe _ (List.sorted_mergeSort keyLe_trans keyLe_total _)

theorem serialize_chain_sorted (m : CityMap) :
    chainLe cityOutLe (serialize m) = true := by
  unfold serialize
  rw [chainLe_map]
  have he : (fun a b => cityOutLe (serCity m a) (serCity m b)) = keyLe := by
    funext a b; rfl
  rw [he]
  exact chainLe_of_pairwise keyLe _ (List.sorted_mergeSort keyLe_trans keyLe_total _)

theorem outputSorted_serialize (m : CityMap) : outputSorted (serialize m) = true := by
  unfold outputSorted
  rw [Bool.and_eq_true]
  refine ⟨serialize_chain_sorted m, ?_⟩
  rw [List.all_eq_true]
  intro c hc
  rcases List.mem_map.mp hc with ⟨ck, hck, rfl⟩
  rw [Bool.and_eq_true]
  constructor
  · exact serAreas_chain_sorted _
  · rw [List.all_eq_true]
    intro a ha
    rcases List.mem_map.mp ha with ⟨ak, hak, rfl⟩
    rw [Bool.and_eq_true]
    constructor
    · exact serRoads_chain_sorted _
    · rw [List.all_eq_true]
      intro rd hrd
      rcases List.mem_map.mp hrd with ⟨rk, hrk, rfl⟩
      exact serRoad_buildings_sorted _ _

/-- Claim C6: in the output, cities are sorted ascending by
(CityName, CityEngName), areas within a city by (AreaName, AreaEngName),
roads within an area by (RoadName, RoadEngName) and buildings within a road
by (BuildingNo, BuildingName, BuildingEngName), all comparisons being
codepoint-wise lexicographic string order extended to tuples. -/
theorem output_sorted_at_every_level (rs : List AddrRec) :
    outputSorted (pipeline rs) = true :=
  outputSorted_serialize (buildHier rs)

theorem isEmpty_eq_of_perm {α : Type} {l₁ l₂ : List α} (h : List.Perm l₁ l₂) :
    l₁.isEmpty = l₂.isEmpty := by
  have hl := h.length_eq
  cases l₁ <;> cases l₂ <;> simp_all

/-- The loop with its skip test is the filtered fold. -/
theorem buildHier_eq_buildCities (rs : List AddrRec) :
    buildHier rs = buildCities (rs.filter (fun r => !coreEmpty r)) := by
  suffices h : ∀ (ts : List AddrRec) (m : CityMap),
      ts.foldl processRecord m = foldUp ckey [] updArea m (ts.filter (fun r => !coreEmpty r)) by
    exact h rs []
  intro ts
  induction ts with
  | nil => intro m; rfl
  | cons r t ih =>
    intro m
    rw [List.foldl_cons, List.filter_cons]
    by_cases hc : coreEmpty r
    · have h1 : processRecord m r = m := by simp [processRecord, hc]
      have h2 : (!coreEmpty r) = false := by simp [hc]
      rw [h2]
      simp only [Bool.false_eq_true, if_neg, not_false_iff]
      rw [h1, ih]
    · have hc' : coreEmpty r = false := by simpa using hc
      have h1 : processRecord m r = upsert m (ckey r) [] (updArea r) := by
        simp [processRecord, hc']
      have h2 : (!coreEmpty r) = true := by simp [hc']
      rw [h2, if_pos rfl, h1, ih]
      rfl

theorem buildBs_perm {rs₁ rs₂ : List AddrRec} (h : List.Perm rs₁ rs₂) :
    List.Perm (buildBs [] rs₁) (buildBs [] rs₂) := by
  rw [List.perm_ext_iff_of_nodup (nodup_buildBs [] rs₁ List.nodup_nil)
    (nodup_buildBs [] rs₂ List.nodup_nil)]
  intro b
  rw [mem_buildBs, mem_buildBs]
  simp only [List.not_mem_nil, false_or]
  constructor
  · rintro ⟨r, hr, hn, ht⟩; exact ⟨r, h.mem_iff.mp hr, hn, ht⟩
  · rintro ⟨r, hr, hn, ht⟩; exact ⟨r, h.mem_iff.mpr hr, hn, ht⟩

theorem keysOf_foldUp_perm {β : Type} (key : AddrRec → NameKey) (d : β)
    (upd : AddrRec → β → β) {rs₁ rs₂ : List AddrRec} (h : List.Perm rs₁ rs₂) :
    List.Perm (keysOf (foldUp key d upd [] rs₁)) (keysOf (foldUp key d upd [] rs₂)) := by
  rw [List.perm_ext_iff_of_nodup (nodup_keysOf_foldUp key d upd [] rs₁ List.nodup_nil)
    (nodup_keysOf_foldUp key d upd [] rs₂ List.nodup_nil)]
  intro k
  rw [mem_keysOf_foldUp, mem_keysOf_foldUp]
  simp only [keysOf_nil, List.not_mem_nil, false_or]
  constructor
  · rintro ⟨r, hr, hk⟩; exact ⟨r, h.mem_iff.mp hr, hk⟩
  · rintro ⟨r, hr, hk⟩; exact ⟨r, h.mem_iff.mpr hr, hk⟩

theorem serRoads_perm_eq {rs₁ rs₂ : List AddrRec} (h : List.Perm rs₁ rs₂) :
    serRoads (buildRoads rs₁) = serRoads (buildRoads rs₂) := by
  unfold serRoads buildRoads
  rw [mergeSort_eq_of_perm keyLe keyLe_trans keyLe_total keyLe_antisymm
    (keysOf_foldUp_perm rkey [] updB h)]
  apply List.map_congr_left
  intro rk hrk
  have hl₁ : lookupD (foldUp rkey [] updB [] rs₁) rk [] =
      buildBs [] (rs₁.filter (fun r => rkey r == rk)) := by
    rw [lookupD_foldUp]; rfl
  have hl₂ : lookupD (foldUp rkey [] updB [] rs₂) rk [] =
      buildBs [] (rs₂.filter (fun r => rkey r == rk)) := by
    rw [lookupD_foldUp]; rfl
  have hbp : List.Perm (buildBs [] (rs₁.filter (fun r => rkey r == rk)))
      (buildBs [] (rs₂.filter (fun r => rkey r == rk))) :=
    buildBs_perm (h.filter _)
  simp only [serRoad]
  rw [hl₁, hl₂, isEmpty_eq_of_perm hbp,
    mergeSort_eq_of_perm bldLe bldLe_trans bldLe_total bldLe_antisymm hbp]

theorem serAreas_perm_eq {rs₁ rs₂ : List AddrRec} (h : List.Perm rs₁ rs₂) :
    serAreas (buildAreas rs₁) = serAreas (buildAreas rs₂) := by
  unfold serAreas buildAreas
  rw [mergeSort_eq_of_perm keyLe keyLe_trans keyLe_total keyLe_antisymm
    (keysOf_foldUp_perm akey [] updRoad h)]
  apply List.map_congr_left
  intro ak hak
  have hl₁ : lookupD (foldUp akey [] updRoad [] rs₁) ak [] =
      buildRoads (rs₁.filter (fun r => akey r == ak)) := by
    rw [lookupD_foldUp]; rfl
  have hl₂ : lookupD (foldUp akey [] updRoad [] rs₂) ak [] =
      buildRoads (rs₂.filter (fun r => akey r == ak)) := by
    rw [lookupD_foldUp]; rfl
  simp only [serArea]
  rw [hl₁, hl₂, serRoads_perm_eq (h.filter _)]

theorem serialize_buildCities_perm_eq {gs₁ gs₂ : List AddrRec} (h : List.Perm gs₁ gs₂) :
    serialize (buildCities gs₁) = serialize (buildCities gs₂) := by
  unfold serialize buildCities
  rw [mergeSort_eq_of_perm keyLe keyLe_trans keyLe_total keyLe_antisymm
    (keysOf_foldUp_perm ckey [] updArea h)]
  apply List.map_congr_left
  intro ck hck
  have hl₁ : lookupD (foldUp ckey [] updArea [] gs₁) ck [] =
      buildAreas (gs₁.filter (fun r => ckey r == ck)) := by
    rw [lookupD_foldUp]; rfl
  have hl₂ : lookupD (foldUp ckey [] updArea [] gs₂) ck [] =
      buildAreas (gs₂.filter (fun r => ckey r == ck)) := by
    rw [lookupD_foldUp]; rfl
  simp only [serCity]
  rw [hl₁, hl₂, serAreas_perm_eq (h.filter _)]

/-- The record stream contributed by a list of files, one block per file, in
file order. -/
def concatFiles (fs : List (List AddrRec)) : List AddrRec :=
  fs.foldr (fun f acc => f ++ acc) []

theorem concatFiles_perm {fs₁ fs₂ : List (List AddrRec)} (h : List.Perm fs₁ fs₂) :
    List.Perm (concatFiles fs₁) (concatFiles fs₂) := by
  induction h with
  | nil => exact List.Perm.refl _
  | cons x h ih => exact ih.append_left x
  | swap x y t =>
    show List.Perm (y ++ (x ++ concatFiles t)) (x ++ (y ++ concatFiles t))
    rw [← List.append_assoc, ← List.append_assoc]
    exact List.perm_append_comm.append_right _
  | trans h₁ h₂ ih₁ ih₂ => exact ih₁.trans ih₂

/-- Claim C7: the output is a deterministic function of the collection of
input records alone: any reordering of the record stream, and any reordering
of whole files, yields an identical output document. -/
theorem pipeline_order_invariant :
    (∀ rs₁ rs₂ : List AddrRec, List.Perm rs₁ rs₂ → pipeline rs₁ = pipeline rs₂) ∧
    (∀ fs₁ fs₂ : List (List AddrRec), List.Perm fs₁ fs₂ →
      pipeline (concatFiles fs₁) = pipeline (concatFiles fs₂)) := by
  have hrec : ∀ rs₁ rs₂ : List AddrRec, List.Perm rs₁ rs₂ → pipeline rs₁ = pipeline rs₂ := by
    intro rs₁ rs₂ h
    unfold pipeline
    rw [buildHier_eq_buildCities, buildHier_eq_buildCities]
    exact serialize_buildCities_perm_eq (h.filter _)
  exact ⟨hrec, fun fs₁ fs₂ h => hrec _ _ (concatFiles_perm h)⟩

/-- Witness for claim C7: two concrete records processed in either order, and
the two one-record files processed in either order, give the same output. -/
theorem pipeline_order_invariant_witness :
    (pipeline [⟨"九龍", "KLN", "油尖旺", "YTM", "彌敦道", "Nathan Road", "1", "大樓", "Tower"⟩,
               ⟨"香港", "HK", "中西區", "CW", "皇后大道", "Queens Road", "2", "樓", "House"⟩] =
     pipeline [⟨"香港", "HK", "中西區", "CW", "皇后大道", "Queens Road", "2", "樓", "House"⟩,
               ⟨"九龍", "KLN", "油尖旺", "YTM", "彌敦道", "Nathan Road", "1", "大樓", "Tower"⟩]) ∧
    (pipeline (concatFiles [[⟨"九龍", "KLN", "油尖旺", "YTM", "彌敦道", "Nathan Road", "1", "大樓", "Tower"⟩],
                            [⟨"香港", "HK", "中西區", "CW", "皇后大道", "Queens Road", "2", "樓", "House"⟩]]) =
     pipeline (concatFiles [[⟨"香港", "HK", "中西區", "CW", "皇后大道", "Queens Road", "2", "樓", "House"⟩],
                            [⟨"九龍", "KLN", "油尖旺", "YTM", "彌敦道", "Nathan Road", "1", "大樓", "Tower"⟩]])) :=
  ⟨pipeline_order_invariant.1 _ _
     (List.Perm.swap
       (⟨"香港", "HK", "中西區", "CW", "皇后大道", "Queens Road", "2", "樓", "House"⟩ : AddrRec)
       (⟨"九龍", "KLN", "油尖旺", "YTM", "彌敦道", "Nathan Road", "1", "大樓", "Tower"⟩ : AddrRec) []),
   pipeline_order_invariant.2 _ _
     (List.Perm.swap
       ([⟨"香港", "HK", "中西區", "CW", "皇后大道", "Queens Road", "2", "樓", "House"⟩] : List AddrRec)
       ([⟨"九龍", "KLN", "油尖旺", "YTM", "彌敦道", "Nathan Road", "1", "大樓", "Tower"⟩] : List AddrRec) [])⟩

theorem serRoad_roadName (roads : RoadMap) (rk : NameKey) :
    (serRoad roads rk).roadName = rk.1 := rfl

theorem serRoad_roadEngName (roads : RoadMap) (rk : NameKey) :
    (serRoad roads rk).roadEngName = rk.2 := rfl

theorem serArea_areaName (areas : AreaMap) (ak : NameKey) :
    (serArea areas ak).areaName = ak.1 := rfl

theorem serArea_areaEngName (areas : AreaMap) (ak : NameKey) :
    (serArea areas ak).areaEngName = ak.2 := rfl

theorem serArea_roadList (areas : AreaMap) (ak : NameKey) :
    (serArea areas ak).roadList = serRoads (lookupD areas ak []) := rfl

theorem serCity_cityName (m : CityMap) (ck : NameKey) :
    (serCity m ck).cityName = ck.1 := rfl

theorem serCity_cityEngName (m : CityMap) (ck : NameKey) :
    (serCity m ck).cityEngName = ck.2 := rfl

theorem serCity_areaList (m : CityMap) (ck : NameKey) :
    (serCity m ck).areaList = serAreas (lookupD m ck []) := rfl

theorem sum_map_eq_zero {α : Type} (l : List α) (f : α → Nat) (h : ∀ x ∈ l, f x = 0) :
    (l.map f).sum = 0 := by
  induction l with
  | nil => rfl
  | cons a t ih =>
    simp [h a (List.mem_cons_self a t), ih (fun x hx => h x (List.mem_cons_of_mem a hx))]

theorem sum_map_eq_single {α : Type} [DecidableEq α] (l : List α) (f : α → Nat) (k : α)
    (hN : l.Nodup) (hk : k ∈ l) (h0 : ∀ x ∈ l, x ≠ k → f x = 0) :
    (l.map f).sum = f k := by
  induction l with
  | nil => cases hk
  | cons a t ih =>
    rcases List.nodup_cons.mp hN with ⟨ha, ht⟩
    rcases List.mem_cons.mp hk with rfl | hk'
    · have hz : (t.map f).sum = 0 :=
        sum_map_eq_zero t f (fun x hx => h0 x (List.mem_cons_of_mem _ hx) (fun he => ha (he ▸ hx)))
      simp [hz]
    · have hak : a ≠ k := fun he => ha (he ▸ hk')
      simp [h0 a (List.mem_cons_self a t) hak,
        ih ht hk' (fun x hx hxk => h0 x (List.mem_cons_of_mem a hx) hxk)]

theorem sum_map_mergeSort {α : Type} (le : α → α → Bool) (l : List α) (f : α → Nat) :
    ((l.mergeSort le).map f).sum = (l.map f).sum :=
  ((List.mergeSort_perm l le).map f).sum_eq

theorem countRoads_serRoads (roads : RoadMap) (rk : NameKey) (b : BldOut)
    (hN : (keysOf roads).Nodup) (hk : rk ∈ keysOf roads) :
    countRoads (serRoads roads) rk b = countBs (serRoad roads rk).buildings b := by
  unfold countRoads serRoads
  rw [List.map_map]
  have hfun : ((fun rd =>
      if rd.roadName = rk.1 ∧ rd.roadEngName = rk.2 then countBs rd.buildings b else 0) ∘
        serRoad roads) =
      (fun k => if k = rk then countBs (serRoad roads rk).buildings b else 0) := by
    funext k
    simp only [Function.comp_apply, serRoad_roadName, serRoad_roadEngName]
    by_cases he : k = rk
    · subst he; simp
    · have hne : ¬(k.1 = rk.1 ∧ k.2 = rk.2) := fun hh => he (Prod.ext hh.1 hh.2)
      simp [hne, he]
  rw [hfun, sum_map_mergeSort,
    sum_map_eq_single (keysOf roads) _ rk hN hk (fun x hx hxr => by simp [hxr])]
  simp

theorem countAreas_serAreas (areas : AreaMap) (ak rk : NameKey) (b : BldOut)
    (hN : (keysOf areas).Nodup) (hk : ak ∈ keysOf areas) :
    countAreas (serAreas areas) ak rk b =
      countRoads (serRoads (lookupD areas ak [])) rk b := by
  unfold countAreas serAreas
  rw [List.map_map]
  have hfun : ((fun a =>
      if a.areaName = ak.1 ∧ a.areaEngName = ak.2 then countRoads a.roadList rk b else 0) ∘
        serArea areas) =
      (fun k => if k = ak then countRoads (serRoads (lookupD areas ak [])) rk b else 0) := by
    funext k
    simp only [Function.comp_apply, serArea_areaName, serArea_areaEngName, serArea_roadList]
    by_cases he : k = ak
    · subst he; simp
    · have hne : ¬(k.1 = ak.1 ∧ k.2 = ak.2) := fun hh => he (Prod.ext hh.1 hh.2)
      simp [hne, he]
  rw [hfun, sum_map_mergeSort,
    sum_map_eq_single (keysOf areas) _ ak hN hk (fun x hx hxr => by simp [hxr])]
  simp

theorem countOut_serialize (m : CityMap) (ck ak rk : NameKey) (b : BldOut)
    (hN : (keysOf m).Nodup) (hk : ck ∈ keysOf m) :
    countOut (serialize m) ck ak rk b =
      countAreas (serAreas (lookupD m ck [])) ak rk b := by
  unfold countOut serialize
  rw [List.map_map]
  have hfun : ((fun c =>
      if c.cityName = ck.1 ∧ c.cityEngName = ck.2 then countAreas c.areaList ak rk b else 0) ∘
        serCity m) =
      (fun k => if k = ck then countAreas (serAreas (lookupD m ck [])) ak rk b else 0) := by
    funext k
    simp only [Function.comp_apply, serCity_cityName, serCity_cityEngName, serCity_areaList]
    by_cases he : k = ck
    · subst he; simp
    · have hne : ¬(k.1 = ck.1 ∧ k.2 = ck.2) := fun hh => he (Prod.ext hh.1 hh.2)
      simp [hne, he]
  rw [hfun, sum_map_mergeSort,
    sum_map_eq_single (keysOf m) _ ck hN hk (fun x hx hxr => by simp [hxr])]
  simp

theorem serBld_injective : Function.Injective serBld := by
  intro a b h
  obtain ⟨a1, a2, a3⟩ := a
  obtain ⟨b1, b2, b3⟩ := b
  simpa [serBld, BldOut.mk.injEq, Prod.ext_iff] using h

theorem countBs_serRoad (roads : RoadMap) (rk : NameKey) (t : Bld)
    (hmem : t ∈ lookupD roads rk []) (hnd : (lookupD roads rk []).Nodup) :
    countBs (serRoad roads rk).buildings (serBld t) = 1 := by
  have hne : (lookupD roads rk []).isEmpty = false := by
    cases hl : lookupD roads rk [] with
    | nil => rw [hl] at hmem; cases hmem
    | cons x xs => rfl
  have hb : (serRoad roads rk).buildings =
      some (((lookupD roads rk []).mergeSort bldLe).map serBld) := by
    simp [serRoad, hne]
  rw [hb]
  show (((lookupD roads rk []).mergeSort bldLe).map serBld).count (serBld t) = 1
  rw [List.count_map_of_injective _ serBld serBld_injective t,
    (List.mergeSort_perm _ bldLe).count_eq]
  exact List.count_eq_one_of_mem hnd hmem

/-- Claim C8: inserting an already-present triple leaves the building set
unchanged, and whenever some record (in particular either member of a pair of
records agreeing on city, area and road keys and on the whole building
triple) contributes a named building, the output contains exactly one
Buildings entry for that triple under that road. -/
theorem building_dedup_exactly_one :
    (∀ (bs : List Bld) (b : Bld), b ∈ bs → addBld bs b = bs) ∧
    (∀ (rs : List AddrRec) (r₁ r₂ : AddrRec), r₁ ∈ rs → r₂ ∈ rs →
      ckey r₁ = ckey r₂ → akey r₁ = akey r₂ → rkey r₁ = rkey r₂ →
      btriple r₁ = btriple r₂ → coreEmpty r₁ = false → bNamed r₁ = true →
      countOut (pipeline rs) (ckey r₁) (akey r₁) (rkey r₁) (serBld (btriple r₁)) = 1) := by
  constructor
  · intro bs b hb
    simp [addBld, hb]
  · intro rs r₁ r₂ h₁ h₂ hck hak hrk hbt hc hn
    unfold pipeline
    rw [buildHier_eq_buildCities]
    set gs₁ := rs.filter (fun r => !coreEmpty r) with hgs₁
    have hr₁ : r₁ ∈ gs₁ := by
      rw [hgs₁]; exact List.mem_filter.mpr ⟨h₁, by simp [hc]⟩
    have hNc : (keysOf (buildCities gs₁)).Nodup :=
      nodup_keysOf_foldUp ckey [] updArea [] gs₁ List.nodup_nil
    have hkc : ckey r₁ ∈ keysOf (buildCities gs₁) :=
      (mem_keysOf_foldUp ckey [] updArea [] gs₁ (ckey r₁)).mpr (Or.inr ⟨r₁, hr₁, rfl⟩)
    rw [countOut_serialize (buildCities gs₁) (ckey r₁) (akey r₁) (rkey r₁) _ hNc hkc]
    have hlc : lookupD (buildCities gs₁) (ckey r₁) [] =
        buildAreas (gs₁.filter (fun r => ckey r == ckey r₁)) := by
      unfold buildCities buildAreas
      rw [lookupD_foldUp]
      rfl
    rw [hlc]
    set gs₂ := gs₁.filter (fun r => ckey r == ckey r₁) with hgs₂
    have hr₂m : r₁ ∈ gs₂ := by
      rw [hgs₂]; exact List.mem_filter.mpr ⟨hr₁, by simp⟩
    have hNa : (keysOf (buildAreas gs₂)).Nodup :=
      nodup_keysOf_foldUp akey [] updRoad [] gs₂ List.nodup_nil
    have hka : akey r₁ ∈ keysOf (buildAreas gs₂) :=
      (mem_keysOf_foldUp akey [] updRoad [] gs₂ (akey r₁)).mpr (Or.inr ⟨r₁, hr₂m, rfl⟩)
    rw [countAreas_serAreas (buildAreas gs₂) (akey r₁) (rkey r₁) _ hNa hka]
    have hla : lookupD (buildAreas gs₂) (akey r₁) [] =
        buildRoads (gs₂.filter (fun r => akey r == akey r₁)) := by
      unfold buildAreas buildRoads
      rw [lookupD_foldUp]
      rfl
    rw [hla]
    set gs₃ := gs₂.filter (fun r => akey r == akey r₁) with hgs₃
    have hr₃m : r₁ ∈ gs₃ := by
      rw [hgs₃]; exact List.mem_filter.mpr ⟨hr₂m, by simp⟩
    have hNr : (keysOf (buildRoads gs₃)).Nodup :=
      nodup_keysOf_foldUp rkey [] updB [] gs₃ List.nodup_nil
    have hkr : rkey r₁ ∈ keysOf (buildRoads gs₃) :=
      (mem_keysOf_foldUp rkey [] updB [] gs₃ (rkey r₁)).mpr (Or.inr ⟨r₁, hr₃m, rfl⟩)
    rw [countRoads_serRoads (buildRoads gs₃) (rkey r₁) _ hNr hkr]
    have hlr : lookupD (buildRoads gs₃) (rkey r₁) [] =
        buildBs [] (gs₃.filter (fun r => rkey r == rkey r₁)) := by
      unfold buildRoads
      rw [lookupD_foldUp]
      rfl
    apply countBs_serRoad
    · rw [hlr]
      exact (mem_buildBs [] _ (btriple r₁)).mpr
        (Or.inr ⟨r₁, List.mem_filter.mpr ⟨hr₃m, by simp⟩, hn, rfl⟩)
    · rw [hlr]
      exact nodup_buildBs [] _ List.nodup_nil

/-- Witness for claim C8: the same feature appearing twice yields exactly one
Buildings entry, and re-adding a present triple is the identity. -/
theorem building_dedup_exactly_one_witness :
    countOut
      (pipeline [⟨"香港", "HK", "中西區", "CW", "皇后大道", "QR", "2", "樓", "House"⟩,
                 ⟨"香港", "HK", "中西區", "CW", "皇后大道", "QR", "2", "樓", "House"⟩])
      (ckey ⟨"香港", "HK", "中西區", "CW", "皇后大道", "QR", "2", "樓", "House"⟩)
      (akey ⟨"香港", "HK", "中西區", "CW", "皇后大道", "QR", "2", "樓", "House"⟩)
      (rkey ⟨"香港", "HK", "中西區", "CW", "皇后大道", "QR", "2", "樓", "House"⟩)
      (serBld (btriple ⟨"香港", "HK", "中西區", "CW", "皇后大道", "QR", "2", "樓", "House"⟩)) = 1 ∧
    addBld [("2", "樓", "House")] ("2", "樓", "House") = [("2", "樓", "House")] :=
  ⟨building_dedup_exactly_one.2
      [⟨"香港", "HK", "中西區", "CW", "皇后大道", "QR", "2", "樓", "House"⟩,
       ⟨"香港", "HK", "中西區", "CW", "皇后大道", "QR", "2", "樓", "House"⟩]
      ⟨"香港", "HK", "中西區", "CW", "皇后大道", "QR", "2", "樓", "House"⟩
      ⟨"香港", "HK", "中西區", "CW", "皇后大道", "QR", "2", "樓", "House"⟩
      (List.mem_cons_self _ _) (List.mem_cons_self _ _) rfl rfl rfl rfl
      (by decide) (by decide),
   building_dedup_exactly_one.1 [("2", "樓", "House")] ("2", "樓", "House")
     (List.mem_cons_self _ _)⟩
